import Mathlib

/-!
A verification development for the rank-based evaluation engine of this
knowledge-graph-embedding library (`src/pykeen/evaluation/rank_based_evaluator.py`).

The Python code operates on floating-point score tensors in which filtered-out
candidates are encoded as NaN.  Scores are modelled here as exact rationals
extended with a NaN element (`Score.nan`); the IEEE-754 comparison semantics
relevant to the code (`>`/`>=`/`==` involving NaN are always false) are mirrored
by `Score.sgt`, `Score.sge` and `Score.seq`.  Batched tensors become lists;
integer tensors become `ℕ`, float tensors `ℚ`.
-/

namespace PyKEEN

/-- A floating-point score: either NaN (used by the evaluator to mark
filtered-out candidates) or a finite numeric value. -/
inductive Score where
  | nan : Score
  | val : ℚ → Score
deriving DecidableEq, Repr

/-- Strict `>` comparison of scores, with IEEE semantics: any comparison
involving NaN is false.  Mirrors `all_scores > true_score`. -/
def Score.sgt : Score → Score → Bool
  | .nan, _ => false
  | _, .nan => false
  | .val a, .val b => decide (b < a)

/-- `>=` comparison of scores, with IEEE semantics: any comparison involving
NaN is false.  Mirrors `all_scores >= true_score`. -/
def Score.sge : Score → Score → Bool
  | .nan, _ => false
  | _, .nan => false
  | .val a, .val b => decide (b ≤ a)

/-- Equality comparison of scores, with IEEE semantics: `NaN == x` is false. -/
def Score.seq : Score → Score → Bool
  | .nan, _ => false
  | _, .nan => false
  | .val a, .val b => decide (a = b)

/-- `torch.isfinite` on a score: true exactly for numeric (non-NaN) values. -/
def Score.isfinite : Score → Bool
  | .nan => false
  | .val _ => true

/-- `(all_scores > true_score).sum(dim=1) + 1` for one row:
the optimistic rank. -/
def optimisticRank (true_score : Score) (row : List Score) : ℕ :=
  row.countP (fun s => s.sgt true_score) + 1

/-- `(all_scores >= true_score).sum(dim=1)` for one row: the pessimistic rank. -/
def pessimisticRank (true_score : Score) (row : List Score) : ℕ :=
  row.countP (fun s => s.sge true_score)

/-- `(optimistic_rank + pessimistic_rank).float() * 0.5` for one row. -/
def realisticRank (true_score : Score) (row : List Score) : ℚ :=
  ((optimisticRank true_score row : ℚ) + (pessimisticRank true_score row : ℚ)) * (1 / 2)

/-- `torch.isfinite(all_scores).sum(dim=1)` for one row. -/
def numberOfOptions (row : List Score) : ℕ :=
  row.countP Score.isfinite

/-- The `Ranks` dataclass: four parallel arrays (batch dimension as lists). -/
structure Ranks where
  optimistic : List ℕ
  realistic : List ℚ
  pessimistic : List ℕ
  number_of_options : List ℕ
deriving DecidableEq, Repr

/-- `compute_rank_from_scores`: per batch row, the optimistic, realistic and
pessimistic rank together with the number of (finite) options.  `true_score`
is the column vector of true-triple scores, `all_scores` the score matrix. -/
def compute_rank_from_scores (true_score : List Score) (all_scores : List (List Score)) :
    Ranks :=
  let rows := true_score.zip all_scores
  { optimistic := rows.map fun p => optimisticRank p.1 p.2
    realistic := rows.map fun p => realisticRank p.1 p.2
    pessimistic := rows.map fun p => pessimisticRank p.1 p.2
    number_of_options := rows.map fun p => numberOfOptions p.2 }

/-! ### Basic facts about score comparisons and counting -/

theorem sgt_nan_left (t : Score) : Score.sgt .nan t = false := by
  cases t <;> rfl

theorem sge_nan_left (t : Score) : Score.sge .nan t = false := by
  cases t <;> rfl

theorem sgt_imp_sge {s t : Score} (h : s.sgt t = true) : s.sge t = true := by
  cases s <;> cases t <;> simp_all [Score.sgt, Score.sge] <;> linarith

theorem seq_elim {s t : Score} (h : s.seq t = true) :
    ∃ a : ℚ, s = .val a ∧ t = .val a := by
  cases s <;> cases t <;> simp_all [Score.seq]

/-- If `p` implies `q` on `l` and some element of `l` satisfies `q` but not
`p`, the `p`-count is strictly below the `q`-count. -/
theorem countP_lt_of_mem {α : Type} {p q : α → Bool} {l : List α}
    (hmono : ∀ a ∈ l, p a = true → q a = true)
    {a : α} (ha : a ∈ l) (hqa : q a = true) (hpa : p a = false) :
    l.countP p < l.countP q := by
  induction l with
  | nil => cases ha
  | cons x xs ih =>
    rw [List.countP_cons, List.countP_cons]
    rcases List.mem_cons.mp ha with rfl | hmem
    · have hle : xs.countP p ≤ xs.countP q :=
        List.countP_mono_left fun b hb => hmono b (List.mem_cons_of_mem _ hb)
      simp [hpa, hqa]; omega
    · have hlt : xs.countP p < xs.countP q :=
        ih (fun b hb => hmono b (List.mem_cons_of_mem _ hb)) hmem
      have hx : p x = true → q x = true := hmono x (List.mem_cons_self _ _)
      by_cases hpx : p x = true
      · simp [hpx, hx hpx]; omega
      · simp only [Bool.not_eq_true] at hpx
        simp [hpx]; split <;> omega

/-- Row-level invariants of the rank computation, assuming the row contains an
entry that compares equal (`==`, IEEE semantics) to the true score. -/
theorem row_rank_invariants (t : Score) (row : List Score)
    (h : ∃ s ∈ row, s.seq t = true) :
    optimisticRank t row ≤ pessimisticRank t row ∧
      1 ≤ pessimisticRank t row ∧ 1 ≤ numberOfOptions row := by
  obtain ⟨s, hs, hseq⟩ := h
  obtain ⟨a, rfl, rfl⟩ := seq_elim hseq
  have hge : Score.sge (.val a) (.val a) = true := by simp [Score.sge]
  have hgt : Score.sgt (.val a) (.val a) = false := by simp [Score.sgt]
  refine ⟨?_, ?_, ?_⟩
  · have := countP_lt_of_mem (p := fun s => s.sgt (.val a)) (q := fun s => s.sge (.val a))
      (fun b _ hb => sgt_imp_sge hb) hs hge hgt
    unfold optimisticRank pessimisticRank
    omega
  · exact List.countP_pos_iff.mpr ⟨_, hs, hge⟩
  · exact List.countP_pos_iff.mpr ⟨_, hs, rfl⟩

/-! ### Claims C1, C2, C3 -/

/-- C1: for every batch in which each row of `all_scores` contains the true
triple's score, `compute_rank_from_scores` returns per row the optimistic rank
(count of candidates with score strictly greater than the true score, plus
one), the pessimistic rank (count of candidates with score greater-or-equal to
the true score) and the realistic rank (half the sum of the two); on the row
with scores `[2,2,1,3,5]` and true score `2` it returns optimistic 3,
pessimistic 4, realistic 3.5 (and 5 options). -/
theorem C1_compute_rank_from_scores_formulas
    (true_score : List Score) (all_scores : List (List Score))
    (hlen : true_score.length = all_scores.length)
    (hmem : ∀ p ∈ true_score.zip all_scores, p.1 ∈ p.2) :
    (∀ i, i < true_score.length →
      ∃ t row, true_score[i]? = some t ∧ all_scores[i]? = some row ∧
        (compute_rank_from_scores true_score all_scores).optimistic[i]? =
          some (row.countP (fun s => s.sgt t) + 1) ∧
        (compute_rank_from_scores true_score all_scores).pessimistic[i]? =
          some (row.countP (fun s => s.sge t)) ∧
        (compute_rank_from_scores true_score all_scores).realistic[i]? =
          some (((row.countP (fun s => s.sgt t) + 1 : ℚ) +
            (row.countP (fun s => s.sge t) : ℚ)) * (1 / 2))) ∧
    compute_rank_from_scores [.val 2] [[.val 2, .val 2, .val 1, .val 3, .val 5]] =
      ⟨[3], [7 / 2], [4], [5]⟩ := by
  constructor
  · intro i hi
    have hi2 : i < all_scores.length := hlen ▸ hi
    have hz : i < (true_score.zip all_scores).length := by
      simp [List.length_zip]; omega
    have hzip : (true_score.zip all_scores)[i]? =
        some (true_score[i], all_scores[i]) := by
      rw [List.getElem?_eq_getElem hz, List.getElem_zip]
    refine ⟨true_score[i], all_scores[i],
      List.getElem?_eq_getElem hi, List.getElem?_eq_getElem hi2, ?_, ?_, ?_⟩ <;>
      simp [compute_rank_from_scores, List.getElem?_map, hzip,
        optimisticRank, pessimisticRank, realisticRank]
  · simp only [compute_rank_from_scores, List.zip_cons_cons, List.zip_nil_right,
      List.map_cons, List.map_nil, Ranks.mk.injEq]
    refine ⟨?_, ?_, ?_, ?_⟩ <;>
      simp [optimisticRank, pessimisticRank, realisticRank, numberOfOptions,
        Score.sgt, Score.sge, Score.isfinite, List.countP_cons] <;> norm_num

/-- Witness for `C1_compute_rank_from_scores_formulas` at a concrete batch. -/
theorem C1_compute_rank_from_scores_formulas_witness :
    ([Score.val 2].length = [[Score.val 2, Score.val 1]].length) ∧
    ((∀ i, i < [Score.val 2].length →
      ∃ t row, [Score.val 2][i]? = some t ∧
        [[Score.val 2, Score.val 1]][i]? = some row ∧
        (compute_rank_from_scores [Score.val 2]
            [[Score.val 2, Score.val 1]]).optimistic[i]? =
          some (row.countP (fun s => s.sgt t) + 1) ∧
        (compute_rank_from_scores [Score.val 2]
            [[Score.val 2, Score.val 1]]).pessimistic[i]? =
          some (row.countP (fun s => s.sge t)) ∧
        (compute_rank_from_scores [Score.val 2]
            [[Score.val 2, Score.val 1]]).realistic[i]? =
          some (((row.countP (fun s => s.sgt t) + 1 : ℚ) +
            (row.countP (fun s => s.sge t) : ℚ)) * (1 / 2))) ∧
    compute_rank_from_scores [.val 2] [[.val 2, .val 2, .val 1, .val 3, .val 5]] =
      ⟨[3], [7 / 2], [4], [5]⟩) :=
  ⟨rfl, C1_compute_rank_from_scores_formulas [Score.val 2] [[Score.val 2, Score.val 1]]
    rfl (by decide)⟩

/-- C2: for every batch in which each row contains an entry comparing equal to
the true score, the returned `Ranks` satisfy elementwise
`optimistic ≤ realistic ≤ pessimistic`, all three ranks are at least `1`, and
`number_of_options` is at least `1`. -/
theorem C2_rank_ordering_invariant
    (true_score : List Score) (all_scores : List (List Score))
    (hlen : true_score.length = all_scores.length)
    (hmem : ∀ p ∈ true_score.zip all_scores, ∃ s ∈ p.2, s.seq p.1 = true) :
    ∀ i, i < true_score.length →
      ∃ o r pe n,
        (compute_rank_from_scores true_score all_scores).optimistic[i]? = some o ∧
        (compute_rank_from_scores true_score all_scores).realistic[i]? = some r ∧
        (compute_rank_from_scores true_score all_scores).pessimistic[i]? = some pe ∧
        (compute_rank_from_scores true_score all_scores).number_of_options[i]? = some n ∧
        (o : ℚ) ≤ r ∧ r ≤ (pe : ℚ) ∧ 1 ≤ o ∧ (1 : ℚ) ≤ r ∧ 1 ≤ pe ∧ 1 ≤ n := by
  intro i hi
  have hi2 : i < all_scores.length := hlen ▸ hi
  have hz : i < (true_score.zip all_scores).length := by
    simp [List.length_zip]; omega
  have hzip : (true_score.zip all_scores)[i]? =
      some (true_score[i], all_scores[i]) := by
    rw [List.getElem?_eq_getElem hz, List.getElem_zip]
  have hrow := hmem (true_score[i], all_scores[i]) (by
    have := List.getElem_mem hz
    rwa [List.getElem_zip] at this)
  obtain ⟨hop, hp1, hn1⟩ := row_rank_invariants (true_score[i]) (all_scores[i]) hrow
  have ho1 : 1 ≤ optimisticRank true_score[i] all_scores[i] := by
    unfold optimisticRank; omega
  have hopQ : (optimisticRank true_score[i] all_scores[i] : ℚ) ≤
      (pessimisticRank true_score[i] all_scores[i] : ℚ) := by exact_mod_cast hop
  have ho1Q : (1 : ℚ) ≤ (optimisticRank true_score[i] all_scores[i] : ℚ) := by
    exact_mod_cast ho1
  have hp1Q : (1 : ℚ) ≤ (pessimisticRank true_score[i] all_scores[i] : ℚ) := by
    exact_mod_cast hp1
  refine ⟨optimisticRank true_score[i] all_scores[i],
    realisticRank true_score[i] all_scores[i],
    pessimisticRank true_score[i] all_scores[i],
    numberOfOptions all_scores[i], ?_, ?_, ?_, ?_, ?_, ?_, ?_, ?_, ?_, ?_⟩
  · simp [compute_rank_from_scores, List.getElem?_map, hzip]
  · simp [compute_rank_from_scores, List.getElem?_map, hzip]
  · simp [compute_rank_from_scores, List.getElem?_map, hzip]
  · simp [compute_rank_from_scores, List.getElem?_map, hzip]
  · unfold realisticRank; linarith
  · unfold realisticRank; linarith
  · exact ho1
  · unfold realisticRank; linarith
  · exact hp1
  · exact hn1

/-- Witness for `C2_rank_ordering_invariant` at a concrete batch. -/
theorem C2_rank_ordering_invariant_witness :
    ([Score.val 2].length = [[Score.val 2, Score.val 3]].length) ∧
    (∀ i, i < [Score.val 2].length →
      ∃ o r pe n,
        (compute_rank_from_scores [Score.val 2] [[Score.val 2, Score.val 3]]).optimistic[i]? = some o ∧
        (compute_rank_from_scores [Score.val 2] [[Score.val 2, Score.val 3]]).realistic[i]? = some r ∧
        (compute_rank_from_scores [Score.val 2] [[Score.val 2, Score.val 3]]).pessimistic[i]? = some pe ∧
        (compute_rank_from_scores [Score.val 2] [[Score.val 2, Score.val 3]]).number_of_options[i]? = some n ∧
        (o : ℚ) ≤ r ∧ r ≤ (pe : ℚ) ∧ 1 ≤ o ∧ (1 : ℚ) ≤ r ∧ 1 ≤ pe ∧ 1 ≤ n) :=
  ⟨rfl, C2_rank_ordering_invariant [Score.val 2] [[Score.val 2, Score.val 3]]
    rfl (by decide)⟩

/-- C3: NaN entries never satisfy the strict-greater or greater-or-equal
comparisons; inserting a NaN entry anywhere into a row leaves the optimistic,
pessimistic and realistic rank unchanged; and `number_of_options` counts
exactly the finite entries: it equals the row length minus the number of NaN
entries, and agrees with the number of options of the same row with its NaN
entries removed. -/
theorem C3_nan_exclusion :
    (∀ t : Score, Score.sgt .nan t = false ∧ Score.sge .nan t = false) ∧
    (∀ (t : Score) (l₁ l₂ : List Score),
      optimisticRank t (l₁ ++ .nan :: l₂) = optimisticRank t (l₁ ++ l₂) ∧
      pessimisticRank t (l₁ ++ .nan :: l₂) = pessimisticRank t (l₁ ++ l₂) ∧
      realisticRank t (l₁ ++ .nan :: l₂) = realisticRank t (l₁ ++ l₂)) ∧
    (∀ row : List Score,
      numberOfOptions row + row.countP (fun s => decide (s = .nan)) = row.length ∧
      numberOfOptions row = numberOfOptions (row.filter Score.isfinite) ∧
      numberOfOptions (row.filter Score.isfinite) =
        (row.filter Score.isfinite).length) := by
  refine ⟨fun t => ⟨sgt_nan_left t, sge_nan_left t⟩, ?_, ?_⟩
  · intro t l₁ l₂
    have ho : optimisticRank t (l₁ ++ .nan :: l₂) = optimisticRank t (l₁ ++ l₂) := by
      unfold optimisticRank
      simp [List.countP_append, List.countP_cons, sgt_nan_left]
    have hp : pessimisticRank t (l₁ ++ .nan :: l₂) = pessimisticRank t (l₁ ++ l₂) := by
      unfold pessimisticRank
      simp [List.countP_append, List.countP_cons, sge_nan_left]
    exact ⟨ho, hp, by unfold realisticRank; rw [ho, hp]⟩
  · intro row
    refine ⟨?_, ?_, ?_⟩
    · have h : row.countP (fun s => decide (s = .nan)) =
          row.countP (fun s => !s.isfinite) :=
        List.countP_congr (fun s _ => by cases s <;> simp [Score.isfinite])
      rw [h]
      unfold numberOfOptions
      simpa using List.length_eq_countP_add_countP (l := row) (p := Score.isfinite) |>.symm
    · unfold numberOfOptions
      rw [List.countP_filter]
      exact List.countP_congr (fun s _ => by cases s <;> simp [Score.isfinite])
    · unfold numberOfOptions
      rw [List.countP_filter, ← List.countP_eq_length_filter]
      exact List.countP_congr (fun s _ => by cases s <;> simp [Score.isfinite])

/-! ### Metric library

Rank arrays are modelled as `List ℚ` (the evaluator converts stored ranks to
`float64` before applying metrics), candidate counts as `List ℕ`.  Most of the
numpy/scipy formulas are exact rational arithmetic and are modelled directly.
Division is total in `ℚ` (`q / 0 = 0`), whereas numpy float division by zero
yields a non-finite value (NaN or ±inf); where a zero denominator is reachable
the code is modelled through `fdiv`, which returns `none` for a non-finite
result.  numpy reductions over empty arrays (`mean`, `median`, ...) yield NaN;
metric functions therefore guard the empty-input case explicitly.  The two
metrics whose float result is irrational (geometric mean and standard
deviation) are represented symbolically by `MetricValue.gmeanOf`,
`MetricValue.igmeanOf` and `MetricValue.stdOf`; their real value is pinned down
by the characterisation predicate `MetricValue.denotes`.
-/

/-- `np.mean` for a nonempty list: sum divided by length. -/
def npMean (xs : List ℚ) : ℚ := xs.sum / xs.length

/-- `np.median`: middle element of the sorted data for odd length, average of
the two middle elements for even length. -/
def npMedian (xs : List ℚ) : ℚ :=
  let s := xs.mergeSort (fun a b => decide (a ≤ b))
  if xs.length % 2 = 1 then s.getD (xs.length / 2) 0
  else (s.getD (xs.length / 2 - 1) 0 + s.getD (xs.length / 2) 0) / 2

/-- `np.var`: mean squared deviation from the mean. -/
def npVar (xs : List ℚ) : ℚ := npMean (xs.map fun x => (x - npMean xs) ^ 2)

/-- Float division: `none` models the non-finite float result (NaN or ±inf)
produced by a zero denominator. -/
def fdiv (a b : ℚ) : Option ℚ := if b = 0 then none else some (a / b)

/-- `scipy.stats.median_absolute_deviation` scale constant (`1.4826`). -/
def madScale : ℚ := 14826 / 10000

/-- `expected_mean_rank`: `0.5 * (1 + np.mean(num_candidates))`. -/
def expected_mean_rank (num_candidates : List ℕ) : ℚ :=
  (1 / 2) * (1 + npMean (num_candidates.map (Nat.cast : ℕ → ℚ)))

/-- The result of a metric evaluation, as stored by the evaluator. -/
inductive MetricValue where
  /-- a finite float, computed exactly in `ℚ` -/
  | fin (q : ℚ)
  /-- a non-finite float (NaN or ±inf) -/
  | nonfinite
  /-- `scipy.stats.gmean ranks` (irrational in general) -/
  | gmeanOf (ranks : List ℚ)
  /-- `np.reciprocal (scipy.stats.gmean ranks)` -/
  | igmeanOf (ranks : List ℚ)
  /-- `np.std ranks` (irrational in general) -/
  | stdOf (ranks : List ℚ)
deriving DecidableEq, Repr

/-- Which real number a `MetricValue` stands for.  A non-finite float does not
denote any real number; the symbolic geometric-mean and standard-deviation
values are characterised algebraically. -/
def MetricValue.denotes : MetricValue → ℝ → Prop
  | .fin q, x => x = (q : ℝ)
  | .nonfinite, _ => False
  | .gmeanOf rs, x => rs ≠ [] ∧ 0 ≤ x ∧ x ^ rs.length = (rs.map (Rat.cast : ℚ → ℝ)).prod
  | .igmeanOf rs, x =>
      rs ≠ [] ∧ ∃ g : ℝ, 0 ≤ g ∧ g ^ rs.length = (rs.map (Rat.cast : ℚ → ℝ)).prod ∧ g * x = 1
  | .stdOf rs, x => rs ≠ [] ∧ 0 ≤ x ∧ x ^ 2 = (npVar rs : ℝ)

/-- Wrap a possibly non-finite float. -/
def ofFdiv : Option ℚ → MetricValue
  | none => .nonfinite
  | some q => .fin q

/-- `np.reciprocal` of a finite float. -/
def reciprocalQ (q : ℚ) : MetricValue := ofFdiv (fdiv 1 q)

/-- NaN-guard for numpy reductions over empty arrays. -/
def guardEmpty (rs : List ℚ) (v : MetricValue) : MetricValue :=
  if rs.isEmpty then .nonfinite else v

/-- `ValueRange`: the legal numeric interval of a metric.  Bounds live in
`EReal` so that the Python float bound `math.inf` is representable. -/
structure ValueRange where
  lower : Option EReal
  lower_inclusive : Bool
  upper : Option EReal
  upper_inclusive : Bool

/-- `ValueRange.__contains__` for a (finite) float `x`: mirrors the four
checks `x < lower`, `x == lower` (exclusive bound), `x > upper`, `x == upper`
(exclusive bound); a comparison against an absent bound is skipped. -/
def ValueRange.containsReal (v : ValueRange) (x : ℝ) : Prop :=
  (∀ l ∈ v.lower, ¬ ((x : EReal) < l) ∧ (v.lower_inclusive = true ∨ ¬ ((x : EReal) = l))) ∧
  (∀ u ∈ v.upper, ¬ (u < (x : EReal)) ∧ (v.upper_inclusive = true ∨ ¬ ((x : EReal) = u)))

/-- The rank types, in source order. -/
def RANK_TYPES : List String := ["optimistic", "realistic", "pessimistic"]

/-- A rank-based metric: class-level metadata plus the evaluation function
`(ranks, num_candidates) ↦ value`. -/
structure RankMetric where
  name : String
  increasing : Bool
  value_range : ValueRange
  supported_rank_types : List String
  needs_candidates : Bool
  fn : List ℚ → List ℕ → MetricValue

/-- `ArithmeticMeanRank`: `np.mean(ranks)`. -/
def ArithmeticMeanRank : RankMetric where
  name := "ArithmeticMeanRank"
  increasing := false
  value_range := ⟨some ((1 : ℝ) : EReal), true, some ⊤, false⟩
  supported_rank_types := RANK_TYPES
  needs_candidates := false
  fn := fun rs _ => guardEmpty rs (.fin (npMean rs))

/-- `InverseArithmeticMeanRank`: `np.reciprocal(np.mean(ranks))`. -/
def InverseArithmeticMeanRank : RankMetric where
  name := "InverseArithmeticMeanRank"
  increasing := true
  value_range := ⟨some ((0 : ℝ) : EReal), false, some ((1 : ℝ) : EReal), true⟩
  supported_rank_types := RANK_TYPES
  needs_candidates := false
  fn := fun rs _ => guardEmpty rs (reciprocalQ (npMean rs))

/-- `GeometricMeanRank`: `scipy.stats.gmean(ranks)`. -/
def GeometricMeanRank : RankMetric where
  name := "GeometricMeanRank"
  increasing := false
  value_range := ⟨some ((1 : ℝ) : EReal), true, some ⊤, false⟩
  supported_rank_types := RANK_TYPES
  needs_candidates := false
  fn := fun rs _ => guardEmpty rs (.gmeanOf rs)

/-- `InverseGeometricMeanRank`: `np.reciprocal(scipy.stats.gmean(ranks))`. -/
def InverseGeometricMeanRank : RankMetric where
  name := "InverseGeometricMeanRank"
  increasing := true
  value_range := ⟨some ((0 : ℝ) : EReal), false, some ((1 : ℝ) : EReal), true⟩
  supported_rank_types := RANK_TYPES
  needs_candidates := false
  fn := fun rs _ => guardEmpty rs (.igmeanOf rs)

/-- `HarmonicMeanRank`: `scipy.stats.hmean(ranks) = n / Σ 1/rᵢ`. -/
def HarmonicMeanRank : RankMetric where
  name := "HarmonicMeanRank"
  increasing := false
  value_range := ⟨some ((1 : ℝ) : EReal), true, some ⊤, false⟩
  supported_rank_types := RANK_TYPES
  needs_candidates := false
  fn := fun rs _ =>
    guardEmpty rs (ofFdiv (fdiv (rs.length : ℚ) (rs.map fun r => r⁻¹).sum))

/-- `InverseHarmonicMeanRank` (MRR): `np.reciprocal(scipy.stats.hmean(ranks))`. -/
def InverseHarmonicMeanRank : RankMetric where
  name := "InverseHarmonicMeanRank"
  increasing := true
  value_range := ⟨some ((0 : ℝ) : EReal), false, some ((1 : ℝ) : EReal), true⟩
  supported_rank_types := RANK_TYPES
  needs_candidates := false
  fn := fun rs _ =>
    guardEmpty rs
      (match fdiv (rs.length : ℚ) (rs.map fun r => r⁻¹).sum with
        | none => .nonfinite
        | some h => reciprocalQ h)

/-- `MedianRank`: `np.median(ranks)`. -/
def MedianRank : RankMetric where
  name := "MedianRank"
  increasing := false
  value_range := ⟨some ((1 : ℝ) : EReal), true, some ⊤, false⟩
  supported_rank_types := RANK_TYPES
  needs_candidates := false
  fn := fun rs _ => guardEmpty rs (.fin (npMedian rs))

/-- `InverseMedianRank`: `np.reciprocal(np.median(ranks))`. -/
def InverseMedianRank : RankMetric where
  name := "InverseMedianRank"
  increasing := true
  value_range := ⟨some ((0 : ℝ) : EReal), false, some ((1 : ℝ) : EReal), true⟩
  supported_rank_types := RANK_TYPES
  needs_candidates := false
  fn := fun rs _ => guardEmpty rs (reciprocalQ (npMedian rs))

/-- `StandardDeviation`: `np.std(ranks)`. -/
def StandardDeviation : RankMetric where
  name := "StandardDeviation"
  increasing := false
  value_range := ⟨some ((0 : ℝ) : EReal), true, some ⊤, false⟩
  supported_rank_types := RANK_TYPES
  needs_candidates := false
  fn := fun rs _ => guardEmpty rs (.stdOf rs)

/-- `Variance`: `np.var(ranks)`. -/
def Variance : RankMetric where
  name := "Variance"
  increasing := false
  value_range := ⟨some ((0 : ℝ) : EReal), true, some ⊤, false⟩
  supported_rank_types := RANK_TYPES
  needs_candidates := false
  fn := fun rs _ => guardEmpty rs (.fin (npVar rs))

/-- `MedianAbsoluteDeviation`:
`scipy.stats.median_absolute_deviation(ranks) = 1.4826 * median(|x - median x|)`. -/
def MedianAbsoluteDeviation : RankMetric where
  name := "MedianAbsoluteDeviation"
  increasing := false
  value_range := ⟨some ((0 : ℝ) : EReal), true, some ⊤, false⟩
  supported_rank_types := RANK_TYPES
  needs_candidates := false
  fn := fun rs _ =>
    guardEmpty rs (.fin (madScale * npMedian (rs.map fun x => |x - npMedian rs|)))

/-- `Count`: `float(ranks.size)`. -/
def Count : RankMetric where
  name := "Count"
  increasing := true
  value_range := ⟨some ((0 : ℝ) : EReal), true, some ⊤, false⟩
  supported_rank_types := RANK_TYPES
  needs_candidates := false
  fn := fun rs _ => .fin (rs.length : ℚ)

/-- `HitsAtK`: `np.less_equal(ranks, k).mean()`. -/
def HitsAtK (k : ℕ) : RankMetric where
  name := "HitsAtK"
  increasing := true
  value_range := ⟨some ((0 : ℝ) : EReal), true, some ((1 : ℝ) : EReal), true⟩
  supported_rank_types := RANK_TYPES
  needs_candidates := false
  fn := fun rs _ =>
    guardEmpty rs (.fin (npMean (rs.map fun r => if r ≤ (k : ℚ) then (1 : ℚ) else 0)))

/-- `AdjustedArithmeticMeanRank` (AMR):
`mean(ranks) / expected_mean_rank(num_candidates)`. -/
def AdjustedArithmeticMeanRank : RankMetric where
  name := "AdjustedArithmeticMeanRank"
  increasing := false
  value_range := ⟨some ((0 : ℝ) : EReal), true, some ((2 : ℝ) : EReal), false⟩
  supported_rank_types := ["realistic"]
  needs_candidates := true
  fn := fun rs nc =>
    if rs.isEmpty || nc.isEmpty then .nonfinite
    else ofFdiv (fdiv (npMean rs) (expected_mean_rank nc))

/-- `AdjustedArithmeticMeanRankIndex` (AMRI):
`1 - (mean(ranks) - 1) / (expected_mean_rank(num_candidates) - 1)`. -/
def AdjustedArithmeticMeanRankIndex : RankMetric where
  name := "AdjustedArithmeticMeanRankIndex"
  increasing := true
  value_range := ⟨some ((-1 : ℝ) : EReal), true, some ((1 : ℝ) : EReal), true⟩
  supported_rank_types := ["realistic"]
  needs_candidates := true
  fn := fun rs nc =>
    if rs.isEmpty || nc.isEmpty then .nonfinite
    else
      match fdiv (npMean rs - 1) (expected_mean_rank nc - 1) with
      | none => .nonfinite
      | some v => .fin (1 - v)

/-- The metric registry (`metric_resolver`): every concrete subclass of
`RankBasedMetric`, in definition order, with `HitsAtK` carrying its `k`. -/
def metricRegistry (k : ℕ) : List RankMetric :=
  [ArithmeticMeanRank, InverseArithmeticMeanRank, GeometricMeanRank,
    InverseGeometricMeanRank, HarmonicMeanRank, InverseHarmonicMeanRank,
    MedianRank, InverseMedianRank, StandardDeviation, Variance,
    MedianAbsoluteDeviation, Count, HitsAtK k, AdjustedArithmeticMeanRank,
    AdjustedArithmeticMeanRankIndex]

/-! ### Arithmetic facts about the metric formulas -/

theorem mul_length_le_sum {rs : List ℚ} {c : ℚ} (h : ∀ r ∈ rs, c ≤ r) :
    (rs.length : ℚ) * c ≤ rs.sum := by
  induction rs with
  | nil => simp
  | cons x xs ih =>
    have hx := h x (List.mem_cons_self _ _)
    have ihh := ih fun r hr => h r (List.mem_cons_of_mem _ hr)
    simp only [List.length_cons, List.sum_cons]
    push_cast
    linarith

theorem sum_le_mul_length {rs : List ℚ} {c : ℚ} (h : ∀ r ∈ rs, r ≤ c) :
    rs.sum ≤ (rs.length : ℚ) * c := by
  induction rs with
  | nil => simp
  | cons x xs ih =>
    have hx := h x (List.mem_cons_self _ _)
    have ihh := ih fun r hr => h r (List.mem_cons_of_mem _ hr)
    simp only [List.length_cons, List.sum_cons]
    push_cast
    linarith

theorem mul_length_lt_sum {rs : List ℚ} {c : ℚ} (h : ∀ r ∈ rs, c ≤ r)
    (hex : ∃ r ∈ rs, c < r) : (rs.length : ℚ) * c < rs.sum := by
  induction rs with
  | nil => simp at hex
  | cons x xs ih =>
    have hx := h x (List.mem_cons_self _ _)
    have hxs : ∀ r ∈ xs, c ≤ r := fun r hr => h r (List.mem_cons_of_mem _ hr)
    have hsum : (xs.length : ℚ) * c ≤ xs.sum := mul_length_le_sum hxs
    simp only [List.length_cons, List.sum_cons]
    push_cast
    obtain ⟨r, hr, hcr⟩ := hex
    rcases List.mem_cons.mp hr with rfl | hrxs
    · linarith
    · have := ih hxs ⟨r, hrxs, hcr⟩
      linarith

theorem length_pos_Q {rs : List ℚ} (hne : rs ≠ []) : (0 : ℚ) < rs.length := by
  have := List.length_pos.mpr hne
  exact_mod_cast this

theorem one_le_npMean {rs : List ℚ} (hne : rs ≠ []) (h : ∀ r ∈ rs, 1 ≤ r) :
    1 ≤ npMean rs := by
  rw [npMean, one_le_div (length_pos_Q hne)]
  have := mul_length_le_sum h
  linarith

theorem npMean_nonneg {rs : List ℚ} (h : ∀ r ∈ rs, 0 ≤ r) : 0 ≤ npMean rs := by
  rw [npMean]
  exact div_nonneg (List.sum_nonneg h) (by positivity)

theorem npMean_le_one {rs : List ℚ} (hne : rs ≠ []) (h : ∀ r ∈ rs, r ≤ 1) :
    npMean rs ≤ 1 := by
  rw [npMean, div_le_one (length_pos_Q hne)]
  have := sum_le_mul_length h
  linarith

theorem one_lt_npMean {rs : List ℚ} (h : ∀ r ∈ rs, 1 ≤ r)
    (hex : ∃ r ∈ rs, 1 < r) : 1 < npMean rs := by
  have hne : rs ≠ [] := by rintro rfl; simp at hex
  rw [npMean, one_lt_div (length_pos_Q hne)]
  have := mul_length_lt_sum h hex
  linarith

theorem npMedian_ge {c : ℚ} {rs : List ℚ} (hne : rs ≠ []) (h : ∀ r ∈ rs, c ≤ r) :
    c ≤ npMedian rs := by
  have hperm := List.mergeSort_perm rs fun a b => decide (a ≤ b)
  have hlen : (rs.mergeSort fun a b => decide (a ≤ b)).length = rs.length :=
    hperm.length_eq
  have hpos : 0 < rs.length := List.length_pos.mpr hne
  have hmem : ∀ x ∈ rs.mergeSort fun a b => decide (a ≤ b), c ≤ x :=
    fun x hx => h x (hperm.mem_iff.mp hx)
  have hidx2 : rs.length / 2 < (rs.mergeSort fun a b => decide (a ≤ b)).length := by
    omega
  have hidx1 : rs.length / 2 - 1 < (rs.mergeSort fun a b => decide (a ≤ b)).length := by
    omega
  simp only [npMedian]
  split
  · rw [List.getD_eq_getElem _ _ hidx2]
    exact hmem _ (List.getElem_mem hidx2)
  · rw [List.getD_eq_getElem _ _ hidx1, List.getD_eq_getElem _ _ hidx2]
    have h1 := hmem _ (List.getElem_mem hidx1)
    have h2 := hmem _ (List.getElem_mem hidx2)
    linarith

theorem npVar_nonneg (rs : List ℚ) : 0 ≤ npVar rs := by
  rw [npVar]
  exact npMean_nonneg fun r hr => by
    obtain ⟨x, _, rfl⟩ := List.mem_map.mp hr
    positivity

/-! ### Value-range containment helpers -/

theorem containsReal_lower_upper {a b : ℝ} {i j : Bool} {x : ℝ}
    (hlow : a < x ∨ (i = true ∧ a ≤ x)) (hup : x < b ∨ (j = true ∧ x ≤ b)) :
    (ValueRange.mk (some (a : EReal)) i (some (b : EReal)) j).containsReal x := by
  constructor
  · intro y hy
    simp only [Option.mem_def, Option.some.injEq] at hy
    subst hy
    rw [EReal.coe_lt_coe_iff, EReal.coe_eq_coe_iff]
    rcases hlow with hlt | ⟨hi, hle⟩
    · exact ⟨by linarith, Or.inr (by linarith)⟩
    · exact ⟨by linarith, Or.inl hi⟩
  · intro y hy
    simp only [Option.mem_def, Option.some.injEq] at hy
    subst hy
    rw [EReal.coe_lt_coe_iff, EReal.coe_eq_coe_iff]
    rcases hup with hlt | ⟨hj, hle⟩
    · exact ⟨by linarith, Or.inr (by linarith)⟩
    · exact ⟨by linarith, Or.inl hj⟩

theorem containsReal_lower_top {a : ℝ} {i j : Bool} {x : ℝ}
    (hlow : a < x ∨ (i = true ∧ a ≤ x)) :
    (ValueRange.mk (some (a : EReal)) i (some ⊤) j).containsReal x := by
  constructor
  · intro y hy
    simp only [Option.mem_def, Option.some.injEq] at hy
    subst hy
    rw [EReal.coe_lt_coe_iff, EReal.coe_eq_coe_iff]
    rcases hlow with hlt | ⟨hi, hle⟩
    · exact ⟨by linarith, Or.inr (by linarith)⟩
    · exact ⟨by linarith, Or.inl hi⟩
  · intro y hy
    simp only [Option.mem_def, Option.some.injEq] at hy
    subst hy
    exact ⟨not_top_lt, Or.inr (EReal.coe_ne_top x)⟩

theorem guardEmpty_ne {rs : List ℚ} (h : rs ≠ []) (v : MetricValue) :
    guardEmpty rs v = v := by
  simp [guardEmpty, h]

theorem one_le_prod_real {l : List ℝ} (h : ∀ x ∈ l, 1 ≤ x) : 1 ≤ l.prod := by
  induction l with
  | nil => simp
  | cons x xs ih =>
    have hx := h x (List.mem_cons_self _ _)
    have hxs := ih fun y hy => h y (List.mem_cons_of_mem _ hy)
    simp only [List.prod_cons]
    nlinarith

/-! ### Claim C4 -/

/-- C4 (amended): for every nonempty rank array whose entries satisfy
`1 ≤ rᵢ ≤ num_candidatesᵢ` — and, as forced by the AMRI counterexample, with
at least one ranking task offering more than one candidate — every metric in
the registry evaluates to a value (the value exists, i.e. is not NaN) and
every real number the value denotes is contained in the metric's declared
`ValueRange`; in particular Hits@k lies in `[0,1]`, the inverse harmonic mean
rank (MRR) lies in `(0,1]` and AMRI lies in `[-1,1]`. -/
theorem C4_metric_value_range_containment (k : ℕ)
    (ranks : List ℚ) (ncand : List ℕ)
    (hne : ranks ≠ [])
    (hlen : ranks.length = ncand.length)
    (hbound : ∀ p ∈ ranks.zip ncand, 1 ≤ p.1 ∧ p.1 ≤ (p.2 : ℚ))
    (hgt1 : ∃ c ∈ ncand, 1 < c) :
    (∀ m ∈ metricRegistry k,
      (∃ x : ℝ, (m.fn ranks ncand).denotes x) ∧
      (∀ x : ℝ, (m.fn ranks ncand).denotes x → m.value_range.containsReal x)) ∧
    (∃ h : ℚ, (HitsAtK k).fn ranks ncand = .fin h ∧ 0 ≤ h ∧ h ≤ 1) ∧
    (∃ v : ℚ, InverseHarmonicMeanRank.fn ranks ncand = .fin v ∧ 0 < v ∧ v ≤ 1) ∧
    (∃ a : ℚ, AdjustedArithmeticMeanRankIndex.fn ranks ncand = .fin a ∧
      -1 ≤ a ∧ a ≤ 1) := by
  -- basic facts about the input
  have hfst : (ranks.zip ncand).map Prod.fst = ranks :=
    List.map_fst_zip _ _ (le_of_eq hlen)
  have hr1 : ∀ r ∈ ranks, 1 ≤ r := by
    intro r hr
    rw [← hfst] at hr
    obtain ⟨p, hp, rfl⟩ := List.mem_map.mp hr
    exact (hbound p hp).1
  have hnen : ncand ≠ [] := by
    intro h0
    apply hne
    have := hlen
    rw [h0] at this
    simpa using List.length_eq_zero.mp (by simpa using this)
  have hnpos : 0 < ranks.length := List.length_pos.mpr hne
  have hnQ : (0 : ℚ) < (ranks.length : ℚ) := length_pos_Q hne
  -- mean of the ranks
  have hμr1 : 1 ≤ npMean ranks := one_le_npMean hne hr1
  have hμr0 : 0 < npMean ranks := lt_of_lt_of_le one_pos hμr1
  -- mean of the candidate counts
  have hc1 : ∀ c ∈ ncand.map (Nat.cast : ℕ → ℚ), 1 ≤ c := by
    intro c hc
    obtain ⟨m, hm, rfl⟩ := List.mem_map.mp hc
    obtain ⟨j, hj, hjm⟩ := List.mem_iff_getElem.mp hm
    have hj' : j < ranks.length := by omega
    have hz : j < (ranks.zip ncand).length := by simp [List.length_zip]; omega
    have hp := hbound ((ranks.zip ncand)[j]) (List.getElem_mem hz)
    rw [List.getElem_zip] at hp
    have : (1 : ℚ) ≤ (ncand[j] : ℚ) := le_trans hp.1 hp.2
    rwa [hjm] at this
  have hμn1 : 1 < npMean (ncand.map (Nat.cast : ℕ → ℚ)) := by
    apply one_lt_npMean hc1
    obtain ⟨c, hc, hcgt⟩ := hgt1
    exact ⟨(c : ℚ), List.mem_map_of_mem _ hc, by exact_mod_cast hcgt⟩
  -- the two means compare
  have hsnd : (ranks.zip ncand).map Prod.snd = ncand :=
    List.map_snd_zip _ _ (ge_of_eq hlen)
  have hsum_le : ranks.sum ≤ (ncand.map (Nat.cast : ℕ → ℚ)).sum := by
    conv_lhs => rw [← hfst]
    conv_rhs => rw [← hsnd, List.map_map]
    exact List.sum_le_sum fun p hp => by simpa using (hbound p hp).2
  have hμle : npMean ranks ≤ npMean (ncand.map (Nat.cast : ℕ → ℚ)) := by
    rw [npMean, npMean, List.length_map, ← hlen]
    gcongr
  -- expected mean rank
  have hemr : expected_mean_rank ncand =
      (1 / 2) * (1 + npMean (ncand.map (Nat.cast : ℕ → ℚ))) := rfl
  have hemr1 : 1 < expected_mean_rank ncand := by rw [hemr]; linarith
  have hemr0 : 0 < expected_mean_rank ncand := by linarith
  -- harmonic sum
  have hS0 : 0 < (ranks.map fun r => r⁻¹).sum := by
    apply List.sum_pos
    · intro x hx
      obtain ⟨r, hr, rfl⟩ := List.mem_map.mp hx
      have := hr1 r hr
      positivity
    · simpa using hne
  have hSn : (ranks.map fun r => r⁻¹).sum ≤ (ranks.length : ℚ) := by
    have h : (ranks.map fun r => r⁻¹).sum ≤
        (((ranks.map fun r => r⁻¹).length : ℚ) * 1) := sum_le_mul_length ?_
    · simpa using h
    · intro x hx
      obtain ⟨r, hr, rfl⟩ := List.mem_map.mp hx
      have h1 := hr1 r hr
      rw [inv_le_one_iff₀]
      right; linarith
  -- concrete values of the rational-valued metrics
  have hAM : ArithmeticMeanRank.fn ranks ncand = .fin (npMean ranks) := by
    simp [ArithmeticMeanRank, guardEmpty_ne hne]
  have hIAM : InverseArithmeticMeanRank.fn ranks ncand = .fin (1 / npMean ranks) := by
    simp [InverseArithmeticMeanRank, guardEmpty_ne hne, reciprocalQ, fdiv,
      ofFdiv, hμr0.ne']
  have hHMval : fdiv (ranks.length : ℚ) (ranks.map fun r => r⁻¹).sum =
      some ((ranks.length : ℚ) / (ranks.map fun r => r⁻¹).sum) := by
    simp [fdiv, hS0.ne']
  have hHM : HarmonicMeanRank.fn ranks ncand =
      .fin ((ranks.length : ℚ) / (ranks.map fun r => r⁻¹).sum) := by
    simp [HarmonicMeanRank, guardEmpty_ne hne, hHMval, ofFdiv]
  have hhm1 : 1 ≤ (ranks.length : ℚ) / (ranks.map fun r => r⁻¹).sum := by
    rw [one_le_div hS0]; exact hSn
  have hhm0 : 0 < (ranks.length : ℚ) / (ranks.map fun r => r⁻¹).sum :=
    lt_of_lt_of_le one_pos hhm1
  have hIHM : InverseHarmonicMeanRank.fn ranks ncand =
      .fin (1 / ((ranks.length : ℚ) / (ranks.map fun r => r⁻¹).sum)) := by
    simp [InverseHarmonicMeanRank, guardEmpty_ne hne, reciprocalQ,
      fdiv, ofFdiv, hS0.ne', hhm0.ne']
  have hmed1 : 1 ≤ npMedian ranks := npMedian_ge hne hr1
  have hmed0 : 0 < npMedian ranks := lt_of_lt_of_le one_pos hmed1
  have hMed : MedianRank.fn ranks ncand = .fin (npMedian ranks) := by
    simp [MedianRank, guardEmpty_ne hne]
  have hIMed : InverseMedianRank.fn ranks ncand = .fin (1 / npMedian ranks) := by
    simp [InverseMedianRank, guardEmpty_ne hne, reciprocalQ, fdiv, ofFdiv,
      hmed0.ne']
  have hVar : Variance.fn ranks ncand = .fin (npVar ranks) := by
    simp [Variance, guardEmpty_ne hne]
  have hmad0 : 0 ≤ madScale * npMedian (ranks.map fun x => |x - npMedian ranks|) := by
    have hmed : (0 : ℚ) ≤ npMedian (ranks.map fun x => |x - npMedian ranks|) := by
      apply npMedian_ge (by simpa using hne)
      intro r hr
      obtain ⟨x, _, rfl⟩ := List.mem_map.mp hr
      positivity
    have : (0 : ℚ) ≤ madScale := by norm_num [madScale]
    positivity
  have hMad : MedianAbsoluteDeviation.fn ranks ncand =
      .fin (madScale * npMedian (ranks.map fun x => |x - npMedian ranks|)) := by
    simp [MedianAbsoluteDeviation, guardEmpty_ne hne]
  have hCount : Count.fn ranks ncand = .fin ((ranks.length : ℚ)) := rfl
  -- hits@k
  have hHits : (HitsAtK k).fn ranks ncand =
      .fin (npMean (ranks.map fun r => if r ≤ (k : ℚ) then (1 : ℚ) else 0)) := by
    simp [HitsAtK, guardEmpty_ne hne]
  have hhits0 : 0 ≤ npMean (ranks.map fun r => if r ≤ (k : ℚ) then (1 : ℚ) else 0) := by
    apply npMean_nonneg
    intro x hx
    obtain ⟨r, _, rfl⟩ := List.mem_map.mp hx
    split <;> norm_num
  have hhits1 : npMean (ranks.map fun r => if r ≤ (k : ℚ) then (1 : ℚ) else 0) ≤ 1 := by
    apply npMean_le_one (by simpa using hne)
    intro x hx
    obtain ⟨r, _, rfl⟩ := List.mem_map.mp hx
    split <;> norm_num
  -- AMR
  have hnei : (ranks.isEmpty || ncand.isEmpty) = false := by
    simp [hne, hnen]
  have hAMR : AdjustedArithmeticMeanRank.fn ranks ncand =
      .fin (npMean ranks / expected_mean_rank ncand) := by
    simp [AdjustedArithmeticMeanRank, hne, hnen, fdiv, ofFdiv, hemr0.ne']
  have hamr0 : 0 ≤ npMean ranks / expected_mean_rank ncand := by positivity
  have hamr2 : npMean ranks / expected_mean_rank ncand < 2 := by
    rw [div_lt_iff hemr0, hemr]
    linarith
  -- AMRI
  have hden : expected_mean_rank ncand - 1 ≠ 0 := by linarith
  have hden0 : 0 < expected_mean_rank ncand - 1 := by linarith
  have hAMRI : AdjustedArithmeticMeanRankIndex.fn ranks ncand =
      .fin (1 - (npMean ranks - 1) / (expected_mean_rank ncand - 1)) := by
    simp [AdjustedArithmeticMeanRankIndex, hne, hnen, fdiv, hden]
  have hv0 : 0 ≤ (npMean ranks - 1) / (expected_mean_rank ncand - 1) := by
    apply div_nonneg (by linarith) (by linarith)
  have hv2 : (npMean ranks - 1) / (expected_mean_rank ncand - 1) ≤ 2 := by
    rw [div_le_iff hden0, hemr]
    linarith
  -- geometric mean: the product of the ranks, over ℝ
  have hprod1 : (1 : ℝ) ≤ (ranks.map (Rat.cast : ℚ → ℝ)).prod := by
    apply one_le_prod_real
    intro x hx
    obtain ⟨r, hr, rfl⟩ := List.mem_map.mp hx
    exact_mod_cast hr1 r hr
  have hprod0 : (0 : ℝ) < (ranks.map (Rat.cast : ℚ → ℝ)).prod := by linarith
  have hgm : ∃ g : ℝ, 0 ≤ g ∧ g ^ ranks.length = (ranks.map (Rat.cast : ℚ → ℝ)).prod := by
    refine ⟨(ranks.map (Rat.cast : ℚ → ℝ)).prod ^ ((ranks.length : ℝ)⁻¹), ?_, ?_⟩
    · positivity
    · rw [← Real.rpow_natCast ((ranks.map (Rat.cast : ℚ → ℝ)).prod ^ ((ranks.length : ℝ)⁻¹)),
        ← Real.rpow_mul hprod0.le,
        inv_mul_cancel₀ (by exact_mod_cast hnpos.ne'), Real.rpow_one]
  have hgm_ge1 : ∀ g : ℝ, 0 ≤ g →
      g ^ ranks.length = (ranks.map (Rat.cast : ℚ → ℝ)).prod → 1 ≤ g := by
    intro g hg hpow
    exact (one_le_pow_iff_of_nonneg hg hnpos.ne').mp (hpow ▸ hprod1)
  -- the registry part
  refine ⟨?_, ⟨_, hHits, hhits0, hhits1⟩,
    ⟨_, hIHM, by positivity, by rw [div_le_one hhm0]; exact hhm1⟩,
    ⟨_, hAMRI, by linarith, by linarith⟩⟩
  intro m hm
  simp only [metricRegistry, List.mem_cons, List.not_mem_nil, or_false] at hm
  rcases hm with rfl | rfl | rfl | rfl | rfl | rfl | rfl | rfl | rfl | rfl | rfl
    | rfl | rfl | rfl | rfl
  · -- ArithmeticMeanRank
    rw [hAM]
    refine ⟨⟨_, rfl⟩, ?_⟩
    rintro x rfl
    exact containsReal_lower_top (Or.inr ⟨rfl, by exact_mod_cast hμr1⟩)
  · -- InverseArithmeticMeanRank
    rw [hIAM]
    refine ⟨⟨_, rfl⟩, ?_⟩
    rintro x rfl
    have h0 : (0 : ℚ) < 1 / npMean ranks := by positivity
    have h1 : 1 / npMean ranks ≤ 1 := by rw [div_le_one hμr0]; exact hμr1
    exact containsReal_lower_upper (Or.inl (by exact_mod_cast h0))
      (Or.inr ⟨rfl, by exact_mod_cast h1⟩)
  · -- GeometricMeanRank
    have hg : GeometricMeanRank.fn ranks ncand = .gmeanOf ranks := by
      simp [GeometricMeanRank, guardEmpty_ne hne]
    rw [hg]
    obtain ⟨g, hg0, hgpow⟩ := hgm
    refine ⟨⟨g, hne, hg0, hgpow⟩, ?_⟩
    rintro x ⟨-, hx0, hxpow⟩
    exact containsReal_lower_top (Or.inr ⟨rfl, hgm_ge1 x hx0 hxpow⟩)
  · -- InverseGeometricMeanRank
    have hg : InverseGeometricMeanRank.fn ranks ncand = .igmeanOf ranks := by
      simp [InverseGeometricMeanRank, guardEmpty_ne hne]
    rw [hg]
    obtain ⟨g, hg0, hgpow⟩ := hgm
    have hg1 : 1 ≤ g := hgm_ge1 g hg0 hgpow
    refine ⟨⟨g⁻¹, hne, g, hg0, hgpow, mul_inv_cancel₀ (by linarith)⟩, ?_⟩
    rintro x ⟨-, g', hg'0, hg'pow, hg'x⟩
    have hg'1 : 1 ≤ g' := hgm_ge1 g' hg'0 hg'pow
    have hx : x = g'⁻¹ := eq_inv_of_mul_eq_one_right hg'x
    subst hx
    have h0 : (0 : ℝ) < g'⁻¹ := by positivity
    have h1 : g'⁻¹ ≤ 1 := by
      rw [inv_le_one_iff₀]; right; linarith
    exact containsReal_lower_upper (Or.inl h0) (Or.inr ⟨rfl, h1⟩)
  · -- HarmonicMeanRank
    rw [hHM]
    refine ⟨⟨_, rfl⟩, ?_⟩
    rintro x rfl
    exact containsReal_lower_top (Or.inr ⟨rfl, by exact_mod_cast hhm1⟩)
  · -- InverseHarmonicMeanRank
    rw [hIHM]
    refine ⟨⟨_, rfl⟩, ?_⟩
    rintro x rfl
    have h0 : (0 : ℚ) < 1 / ((ranks.length : ℚ) / (ranks.map fun r => r⁻¹).sum) := by
      positivity
    have h1 : 1 / ((ranks.length : ℚ) / (ranks.map fun r => r⁻¹).sum) ≤ 1 := by
      rw [div_le_one hhm0]; exact hhm1
    exact containsReal_lower_upper (Or.inl (by exact_mod_cast h0))
      (Or.inr ⟨rfl, by exact_mod_cast h1⟩)
  · -- MedianRank
    rw [hMed]
    refine ⟨⟨_, rfl⟩, ?_⟩
    rintro x rfl
    exact containsReal_lower_top (Or.inr ⟨rfl, by exact_mod_cast hmed1⟩)
  · -- InverseMedianRank
    rw [hIMed]
    refine ⟨⟨_, rfl⟩, ?_⟩
    rintro x rfl
    have h0 : (0 : ℚ) < 1 / npMedian ranks := by positivity
    have h1 : 1 / npMedian ranks ≤ 1 := by rw [div_le_one hmed0]; exact hmed1
    exact containsReal_lower_upper (Or.inl (by exact_mod_cast h0))
      (Or.inr ⟨rfl, by exact_mod_cast h1⟩)
  · -- StandardDeviation
    have hg : StandardDeviation.fn ranks ncand = .stdOf ranks := by
      simp [StandardDeviation, guardEmpty_ne hne]
    rw [hg]
    have hv : (0 : ℝ) ≤ (npVar ranks : ℝ) := by exact_mod_cast npVar_nonneg ranks
    refine ⟨⟨Real.sqrt (npVar ranks), hne, Real.sqrt_nonneg _, Real.sq_sqrt hv⟩, ?_⟩
    rintro x ⟨-, hx0, -⟩
    exact containsReal_lower_top (Or.inr ⟨rfl, hx0⟩)
  · -- Variance
    rw [hVar]
    refine ⟨⟨_, rfl⟩, ?_⟩
    rintro x rfl
    exact containsReal_lower_top
      (Or.inr ⟨rfl, by exact_mod_cast npVar_nonneg ranks⟩)
  · -- MedianAbsoluteDeviation
    rw [hMad]
    refine ⟨⟨_, rfl⟩, ?_⟩
    rintro x rfl
    exact containsReal_lower_top (Or.inr ⟨rfl, by exact_mod_cast hmad0⟩)
  · -- Count
    rw [hCount]
    refine ⟨⟨_, rfl⟩, ?_⟩
    rintro x rfl
    have : (0 : ℚ) ≤ (ranks.length : ℚ) := by positivity
    exact containsReal_lower_top (Or.inr ⟨rfl, by exact_mod_cast this⟩)
  · -- HitsAtK
    rw [hHits]
    refine ⟨⟨_, rfl⟩, ?_⟩
    rintro x rfl
    exact containsReal_lower_upper (Or.inr ⟨rfl, by exact_mod_cast hhits0⟩)
      (Or.inr ⟨rfl, by exact_mod_cast hhits1⟩)
  · -- AdjustedArithmeticMeanRank
    rw [hAMR]
    refine ⟨⟨_, rfl⟩, ?_⟩
    rintro x rfl
    exact containsReal_lower_upper (Or.inr ⟨rfl, by exact_mod_cast hamr0⟩)
      (Or.inl (by exact_mod_cast hamr2))
  · -- AdjustedArithmeticMeanRankIndex
    rw [hAMRI]
    refine ⟨⟨_, rfl⟩, ?_⟩
    rintro x rfl
    have hlo : (-1 : ℚ) ≤ 1 - (npMean ranks - 1) / (expected_mean_rank ncand - 1) := by
      linarith
    have hhi : 1 - (npMean ranks - 1) / (expected_mean_rank ncand - 1) ≤ 1 := by
      linarith
    exact containsReal_lower_upper (Or.inr ⟨rfl, by exact_mod_cast hlo⟩)
      (Or.inr ⟨rfl, by exact_mod_cast hhi⟩)

/-- Witness for `C4_metric_value_range_containment` at ranks `[1,2]` with
candidate counts `[2,3]` and `k = 10`. -/
theorem C4_metric_value_range_containment_witness :
    (([1, 2] : List ℚ) ≠ [] ∧
      ([1, 2] : List ℚ).length = ([2, 3] : List ℕ).length ∧
      (∀ p ∈ ([1, 2] : List ℚ).zip ([2, 3] : List ℕ), 1 ≤ p.1 ∧ p.1 ≤ (p.2 : ℚ)) ∧
      (∃ c ∈ ([2, 3] : List ℕ), 1 < c)) ∧
    ((∀ m ∈ metricRegistry 10,
      (∃ x : ℝ, (m.fn [1, 2] [2, 3]).denotes x) ∧
      (∀ x : ℝ, (m.fn [1, 2] [2, 3]).denotes x → m.value_range.containsReal x)) ∧
    (∃ h : ℚ, (HitsAtK 10).fn [1, 2] [2, 3] = .fin h ∧ 0 ≤ h ∧ h ≤ 1) ∧
    (∃ v : ℚ, InverseHarmonicMeanRank.fn [1, 2] [2, 3] = .fin v ∧ 0 < v ∧ v ≤ 1) ∧
    (∃ a : ℚ, AdjustedArithmeticMeanRankIndex.fn [1, 2] [2, 3] = .fin a ∧
      -1 ≤ a ∧ a ≤ 1)) :=
  ⟨⟨by decide, rfl, by decide, by decide⟩,
    C4_metric_value_range_containment 10 [1, 2] [2, 3] (by decide) rfl
      (by decide) (by decide)⟩

/-- Counterexample to C4 as stated: on the valid one-row input with rank `1`
and a single candidate (`num_candidates = [1]`), AMRI evaluates to
`1 - 0/0`, a non-finite float (NaN), which is not a number in `[-1, 1]`. -/
theorem C4_amri_nan_counterexample :
    (([1] : List ℚ) ≠ [] ∧
      ([1] : List ℚ).length = ([1] : List ℕ).length ∧
      (∀ p ∈ ([1] : List ℚ).zip ([1] : List ℕ), 1 ≤ p.1 ∧ p.1 ≤ (p.2 : ℚ))) ∧
    AdjustedArithmeticMeanRankIndex.fn [1] [1] = .nonfinite ∧
    ¬ ∃ a : ℚ, AdjustedArithmeticMeanRankIndex.fn [1] [1] = .fin a ∧
      -1 ≤ a ∧ a ≤ 1 := by
  have hfn : AdjustedArithmeticMeanRankIndex.fn [1] [1] = .nonfinite := by
    have h1 : npMean [(1 : ℚ)] = 1 := by norm_num [npMean]
    have h2 : expected_mean_rank [1] = 1 := by norm_num [expected_mean_rank, npMean]
    simp [AdjustedArithmeticMeanRankIndex, h1, h2, fdiv]
  refine ⟨⟨by decide, rfl, by decide⟩, hfn, ?_⟩
  rintro ⟨a, ha, -⟩
  rw [hfn] at ha
  exact MetricValue.noConfusion ha

/-! ### Metric-name resolution

`resolve_metric_name` parses a query string with the anchored-at-start regex
`METRIC_PATTERN = (?P<name>[\w@]+)(\.(?P<side>head|tail|both))?`
`(\.(?P<type>optimistic|realistic|pessimistic|best|worst|avg|average))?`
`(\.(?P<k>\d+))?` (via `re.match`, so trailing unmatched text is ignored).
Because every group after the name is optional and starts with a literal dot
— a character the name class `[\w@]+` excludes — the regex never needs to
backtrack: the name group is the maximal leading run of word/`@` characters
and each optional group matches greedily by prefix, trying its alternatives
left to right.  The parser below implements exactly that.  Strings are
modelled as `List Char` / `String` over their ASCII fragment. -/

/-- The character class `[\w@]` (ASCII fragment): letters, digits, `_`, `@`. -/
def isWordChar (c : Char) : Bool := c.isAlphanum || c = '_' || c = '@'

/-- The parse result of `METRIC_PATTERN`: the four named groups. -/
structure ParsedMetric where
  name : List Char
  side : Option (List Char)
  rank_type : Option (List Char)
  k : Option (List Char)
deriving DecidableEq, Repr

/-- Match `(\.(alt₁|alt₂|…))?` at the front of `cs`: on a leading dot, the
first alternative that is a prefix of what follows wins (regex alternatives
are tried left to right); otherwise the optional group is skipped. -/
def matchDotAlt (alts : List (List Char)) (cs : List Char) :
    Option (List Char) × List Char :=
  match cs with
  | '.' :: rest =>
    match alts.find? (fun a => a.isPrefixOf rest) with
    | some a => (some a, rest.drop a.length)
    | none => (none, cs)
  | _ => (none, cs)

/-- Match `(\.(?P<k>\d+))?` at the front of `cs`. -/
def matchDotDigits (cs : List Char) : Option (List Char) × List Char :=
  match cs with
  | '.' :: rest =>
    let ds := rest.takeWhile Char.isDigit
    if ds.isEmpty then (none, cs) else (some ds, rest.drop ds.length)
  | _ => (none, cs)

/-- The side alternatives of `METRIC_PATTERN`, in source order. -/
def SIDE_ALTS : List (List Char) := ["head".toList, "tail".toList, "both".toList]

/-- The rank-type alternatives (rank types then synonyms), in source order. -/
def TYPE_ALTS : List (List Char) :=
  ["optimistic".toList, "realistic".toList, "pessimistic".toList,
    "best".toList, "worst".toList, "avg".toList, "average".toList]

/-- `METRIC_PATTERN.match`: `none` iff the string does not start with a
word/`@` character (the name group needs at least one such character). -/
def METRIC_PATTERN_match (cs : List Char) : Option ParsedMetric :=
  let nm := cs.takeWhile isWordChar
  if nm.isEmpty then none
  else
    let r0 := cs.dropWhile isWordChar
    let (side, r1) := matchDotAlt SIDE_ALTS r0
    let (ty, r2) := matchDotAlt TYPE_ALTS r1
    let (k, _r3) := matchDotDigits r2
    some ⟨nm, side, ty, k⟩

/-- `HITS_PATTERN.match`: `(hits_at_|hits@|h@)(?P<k>\d+)`, alternatives tried
left to right, trailing text ignored; returns the digit group. -/
def HITS_PATTERN_match (cs : List Char) : Option (List Char) :=
  let tryAlt := fun (p : List Char) =>
    if p.isPrefixOf cs then
      let ds := (cs.drop p.length).takeWhile Char.isDigit
      if ds.isEmpty then none else some ds
    else none
  match tryAlt "hits_at_".toList with
  | some ds => some ds
  | none =>
    match tryAlt "hits@".toList with
    | some ds => some ds
    | none => tryAlt "h@".toList

/-- `int(·)` on a digit string. -/
def parseNat (cs : List Char) : ℕ :=
  cs.foldl (fun a c => 10 * a + (c.toNat - '0'.toNat)) 0

/-- `str(·)` on a natural number (decimal). -/
def natToDigits (n : ℕ) : List Char :=
  if n = 0 then ['0'] else ((Nat.digits 10 n).map Nat.digitChar).reverse

/-- `METRIC_SYNONYMS`: the hand-written metric-name synonym table (only the
adjusted-mean-rank family). -/
def METRIC_SYNONYMS : List (String × String) :=
  [("adjusted_mean_rank", "adjusted_arithmetic_mean_rank"),
   ("adjusted_mean_rank_index", "adjusted_arithmetic_mean_rank_index"),
   ("amr", "adjusted_arithmetic_mean_rank"),
   ("aamr", "adjusted_arithmetic_mean_rank"),
   ("amri", "adjusted_arithmetic_mean_rank_index"),
   ("aamri", "adjusted_arithmetic_mean_rank_index")]

/-- `RANK_TYPE_SYNONYMS`. -/
def RANK_TYPE_SYNONYMS : List (String × String) :=
  [("best", "optimistic"), ("worst", "pessimistic"),
   ("avg", "realistic"), ("average", "realistic")]

/-- `dict.get(key, key)`-style lookup in an association list. -/
def synLookup (table : List (String × String)) (s : String) : String :=
  match table.find? (fun p => p.1 = s) with
  | some p => p.2
  | none => s

/-- `TYPES_REALISTIC_ONLY`. -/
def TYPES_REALISTIC_ONLY : List String :=
  ["adjusted_arithmetic_mean_rank", "adjusted_arithmetic_mean_rank_index"]

/-- `MetricKey`.  Python's `int` field `k` is modelled as `ℕ`: every `k` the
code constructs comes from a digit group of the regex or the literal `10`,
so it is never negative (which is also why the source's `k < 0` check can
never fire on a parsed value). -/
structure MetricKey where
  name : String
  side : String
  rank_type : String
  k : Option ℕ
deriving DecidableEq, Repr

/-- `MetricKey.__str__`: dot-joined components; `k` is appended only when it
is truthy (present and nonzero). -/
def MetricKey.toChars (key : MetricKey) : List Char :=
  let base := key.name.toList ++ '.' :: key.side.toList ++ '.' :: key.rank_type.toList
  match key.k with
  | some n => if n ≠ 0 then base ++ '.' :: natToDigits n else base
  | none => base

/-- `str(key)` as a `String`. -/
def metricKeyToString (key : MetricKey) : String := String.mk key.toChars

/-- The tail of `resolve_metric_name` after the `hits_at_k`/`k` handling:
synonym normalisation and side/rank-type validation. -/
def resolveRest (name1 : String) (k : Option ℕ) (p : ParsedMetric) :
    Except String MetricKey :=
  let name2 := synLookup METRIC_SYNONYMS name1
  -- normalize side (the membership check cannot fire: the regex side
  -- group only matches the three lowercase sides)
  let side0 := match p.side with | none => "both".toList | some sd => sd
  let side1 : String := String.mk (side0.map Char.toLower)
  if side1 ∉ (["head", "tail", "both"] : List String) then
    .error ("Invalid side: " ++ side1 ++ ". Allowed are head, tail, both.")
  else
    -- normalize rank type (likewise only reachable with valid input)
    let ty0 := match p.rank_type with | none => "realistic".toList | some t => t
    let ty1 := synLookup RANK_TYPE_SYNONYMS (String.mk (ty0.map Char.toLower))
    if ty1 ∉ (["optimistic", "realistic", "pessimistic"] : List String) then
      .error ("Invalid rank type: " ++ ty1 ++
        ". Allowed are optimistic, realistic, pessimistic.")
    else if ty1 ≠ "realistic" ∧ name2 ∈ TYPES_REALISTIC_ONLY then
      .error ("Invalid rank type for " ++ name2 ++ ": " ++ ty1 ++
        ". Allowed type: realistic")
    else
      .ok ⟨name2, side1, ty1, k⟩

/-- The post-regex part of `resolve_metric_name`, acting on the four parsed
groups. -/
def resolveParsed (p : ParsedMetric) : Except String MetricKey :=
  -- normalize metric name: `name.lower().replace(" ", "_")` — the
  -- `replace` is the identity because `[\w@]` excludes spaces; the
  -- `if not name` check cannot fire because the name group is `+`
  let name0 := p.name.map Char.toLower
  -- special case for hits_at_k
  let hk := HITS_PATTERN_match name0
  let name1 : String := if hk.isSome then "hits_at_k" else String.mk name0
  let kRaw : Option (List Char) := match hk with
    | some ds => some ds
    | none => p.k
  if name1 = "hits_at_k" then
    -- `int(k)` of a digit group cannot fail, and the parsed value is a
    -- natural number, so the `k < 0` branch cannot fire
    let kv : ℕ := match kRaw with
      | none => 10
      | some ds => parseNat ds
    resolveRest name1 (some kv) p
  else
    match kRaw with
    | some _ =>
      -- `assert k is None or isinstance(k, int)`: for any other metric a
      -- matched `.k` group leaves `k` a string, and the assertion fires
      .error "AssertionError: k is only supported for hits_at_k"
    | none => resolveRest name1 none p

/-- `resolve_metric_name`: parse, normalise and validate a metric query
string; raising `ValueError`/`AssertionError` is modelled as `Except.error`
with the message. -/
def resolveMetricName (s : String) : Except String MetricKey :=
  match METRIC_PATTERN_match s.toList with
  | none => .error ("Invalid metric name: " ++ s)
  | some p => resolveParsed p

/-- The canonical metric names: the named constants of the source plus the
plain rank statistics and `hits_at_k`. -/
def canonicalNames : List String :=
  ["arithmetic_mean_rank", "geometric_mean_rank", "harmonic_mean_rank",
   "median_rank", "inverse_arithmetic_mean_rank", "inverse_geometric_mean_rank",
   "inverse_harmonic_mean_rank", "inverse_median_rank", "rank_std", "rank_var",
   "rank_mad", "rank_count", "adjusted_arithmetic_mean_rank",
   "adjusted_arithmetic_mean_rank_index", "hits_at_k"]

/-! ### Decimal digits round-trip -/

theorem digitChar_spec : ∀ d < 10,
    (Nat.digitChar d).isDigit = true ∧ (Nat.digitChar d).toNat - '0'.toNat = d := by
  decide

theorem foldl_digits (l : List ℕ) (a : ℕ) (h : ∀ d ∈ l, d < 10) :
    List.foldl (fun a c => 10 * a + (c.toNat - '0'.toNat)) a
      ((l.map Nat.digitChar).reverse) = a * 10 ^ l.length + Nat.ofDigits 10 l := by
  induction l generalizing a with
  | nil => simp [Nat.ofDigits_nil]
  | cons d t ih =>
    have hd : d < 10 := h d (List.mem_cons_self _ _)
    have hval : (Nat.digitChar d).toNat - '0'.toNat = d := (digitChar_spec d hd).2
    rw [List.map_cons, List.reverse_cons, List.foldl_append]
    rw [ih a fun x hx => h x (List.mem_cons_of_mem _ hx)]
    simp only [List.foldl_cons, List.foldl_nil, hval, Nat.ofDigits_cons,
      List.length_cons]
    ring

theorem parseNat_natToDigits (n : ℕ) : parseNat (natToDigits n) = n := by
  by_cases h : n = 0
  · subst h; decide
  · rw [natToDigits, if_neg h, parseNat]
    have := foldl_digits (Nat.digits 10 n) 0
      (fun d hd => Nat.digits_lt_base (by norm_num) hd)
    simpa [Nat.ofDigits_digits] using this

theorem natToDigits_digits (n : ℕ) : ∀ c ∈ natToDigits n, c.isDigit = true := by
  intro c hc
  rw [natToDigits] at hc
  split at hc
  · simp at hc; subst hc; decide
  · rw [List.mem_reverse] at hc
    obtain ⟨d, hd, rfl⟩ := List.mem_map.mp hc
    exact (digitChar_spec d (Nat.digits_lt_base (by norm_num) hd)).1

theorem natToDigits_ne_nil (n : ℕ) : natToDigits n ≠ [] := by
  rw [natToDigits]
  split
  · simp
  · simp [Nat.digits_ne_nil_iff_ne_zero, *]

/-! ### Parser stage lemmas -/

theorem takeWhile_all {p : Char → Bool} {l : List Char}
    (h : ∀ c ∈ l, p c = true) : l.takeWhile p = l := by
  induction l with
  | nil => rfl
  | cons x xs ih =>
    rw [List.takeWhile_cons, if_pos (h x (List.mem_cons_self _ _)),
      ih fun c hc => h c (List.mem_cons_of_mem _ hc)]

theorem takeWhile_append_stop {p : Char → Bool} {nm : List Char}
    (h : ∀ c ∈ nm, p c = true) {c : Char} (hc : p c = false) (r : List Char) :
    (nm ++ c :: r).takeWhile p = nm ∧ (nm ++ c :: r).dropWhile p = c :: r := by
  induction nm with
  | nil => simp [List.takeWhile_cons, List.dropWhile_cons, hc]
  | cons x xs ih =>
    have hx := h x (List.mem_cons_self _ _)
    have ihh := ih fun d hd => h d (List.mem_cons_of_mem _ hd)
    simp only [List.cons_append, List.takeWhile_cons, List.dropWhile_cons, hx,
      if_true]
    exact ⟨by rw [ihh.1], by rw [ihh.2]⟩

theorem isPrefixOf_append_self (a r : List Char) :
    a.isPrefixOf (a ++ r) = true := by
  rw [List.isPrefixOf_iff_prefix]
  exact List.prefix_append _ _

/-- `METRIC_PATTERN` on `nm ++ '.' :: r` for a nonempty all-word-char name:
the name group is `nm` and the optional groups process `'.' :: r`. -/
theorem METRIC_PATTERN_match_split {nm : List Char} (hne : nm ≠ [])
    (hw : ∀ c ∈ nm, isWordChar c = true) (r : List Char) :
    METRIC_PATTERN_match (nm ++ '.' :: r) =
      some ⟨nm, (matchDotAlt SIDE_ALTS ('.' :: r)).1,
        (matchDotAlt TYPE_ALTS (matchDotAlt SIDE_ALTS ('.' :: r)).2).1,
        (matchDotDigits
          (matchDotAlt TYPE_ALTS (matchDotAlt SIDE_ALTS ('.' :: r)).2).2).1⟩ := by
  obtain ⟨ht, hd⟩ := takeWhile_append_stop hw (show isWordChar '.' = false by decide) r
  rw [METRIC_PATTERN_match, ht, hd]
  simp [hne]

theorem matchSide_head (r : List Char) :
    matchDotAlt SIDE_ALTS ('.' :: ("head".toList ++ r)) = (some "head".toList, r) := by
  rw [matchDotAlt, SIDE_ALTS]
  rw [List.find?_cons_of_pos (a := "head".toList) _ (isPrefixOf_append_self _ r)]
  simp [List.drop_left]

theorem matchSide_tail (r : List Char) :
    matchDotAlt SIDE_ALTS ('.' :: ("tail".toList ++ r)) = (some "tail".toList, r) := by
  rw [matchDotAlt, SIDE_ALTS]
  rw [List.find?_cons_of_neg _ (by simp [List.isPrefixOf])]
  rw [List.find?_cons_of_pos (a := "tail".toList) _ (isPrefixOf_append_self _ r)]
  simp [List.drop_left]

theorem matchSide_both (r : List Char) :
    matchDotAlt SIDE_ALTS ('.' :: ("both".toList ++ r)) = (some "both".toList, r) := by
  rw [matchDotAlt, SIDE_ALTS]
  rw [List.find?_cons_of_neg _ (by simp [List.isPrefixOf])]
  rw [List.find?_cons_of_neg _ (by simp [List.isPrefixOf])]
  rw [List.find?_cons_of_pos (a := "both".toList) _ (isPrefixOf_append_self _ r)]
  simp [List.drop_left]

theorem matchType_optimistic (r : List Char) :
    matchDotAlt TYPE_ALTS ('.' :: ("optimistic".toList ++ r)) =
      (some "optimistic".toList, r) := by
  rw [matchDotAlt, TYPE_ALTS]
  rw [List.find?_cons_of_pos (a := "optimistic".toList) _ (isPrefixOf_append_self _ r)]
  simp [List.drop_left]

theorem matchType_realistic (r : List Char) :
    matchDotAlt TYPE_ALTS ('.' :: ("realistic".toList ++ r)) =
      (some "realistic".toList, r) := by
  rw [matchDotAlt, TYPE_ALTS]
  rw [List.find?_cons_of_neg _ (by simp [List.isPrefixOf])]
  rw [List.find?_cons_of_pos (a := "realistic".toList) _ (isPrefixOf_append_self _ r)]
  simp [List.drop_left]

theorem matchType_pessimistic (r : List Char) :
    matchDotAlt TYPE_ALTS ('.' :: ("pessimistic".toList ++ r)) =
      (some "pessimistic".toList, r) := by
  rw [matchDotAlt, TYPE_ALTS]
  rw [List.find?_cons_of_neg _ (by simp [List.isPrefixOf])]
  rw [List.find?_cons_of_neg _ (by simp [List.isPrefixOf])]
  rw [List.find?_cons_of_pos (a := "pessimistic".toList) _ (isPrefixOf_append_self _ r)]
  simp [List.drop_left]

theorem matchDotDigits_all {ds : List Char} (hne : ds ≠ [])
    (h : ∀ c ∈ ds, c.isDigit = true) :
    (matchDotDigits ('.' :: ds)).1 = some ds := by
  rw [matchDotDigits]
  simp only [takeWhile_all h]
  simp [hne]

theorem resolveParsed_hits (sdc tyc kds : List Char) :
    resolveParsed ⟨"hits_at_k".toList, some sdc, some tyc, some kds⟩ =
      resolveRest "hits_at_k" (some (parseNat kds))
        ⟨"hits_at_k".toList, some sdc, some tyc, some kds⟩ := rfl

/-- Round trip for a single `hits_at_k` key, generic in the (positive) `k`. -/
theorem roundtrip_hits_one (sdc tyc : List Char) (n : ℕ) (hn0 : n ≠ 0)
    (hside : matchDotAlt SIDE_ALTS ('.' :: (sdc ++ '.' :: (tyc ++ '.' :: natToDigits n))) =
      (some sdc, '.' :: (tyc ++ '.' :: natToDigits n)))
    (htype : matchDotAlt TYPE_ALTS ('.' :: (tyc ++ '.' :: natToDigits n)) =
      (some tyc, '.' :: natToDigits n))
    (hrest : resolveRest "hits_at_k" (some n)
        ⟨"hits_at_k".toList, some sdc, some tyc, some (natToDigits n)⟩ =
      .ok ⟨"hits_at_k", String.mk sdc, String.mk tyc, some n⟩) :
    resolveMetricName (metricKeyToString ⟨"hits_at_k", String.mk sdc, String.mk tyc, some n⟩) =
      .ok ⟨"hits_at_k", String.mk sdc, String.mk tyc, some n⟩ := by
  have hch : (metricKeyToString ⟨"hits_at_k", String.mk sdc, String.mk tyc, some n⟩).toList =
      "hits_at_k".toList ++ '.' :: (sdc ++ '.' :: (tyc ++ '.' :: natToDigits n)) := by
    show MetricKey.toChars ⟨"hits_at_k", String.mk sdc, String.mk tyc, some n⟩ = _
    simp [MetricKey.toChars, hn0]
  have hm : METRIC_PATTERN_match
      ("hits_at_k".toList ++ '.' :: (sdc ++ '.' :: (tyc ++ '.' :: natToDigits n))) =
      some ⟨"hits_at_k".toList, some sdc, some tyc, some (natToDigits n)⟩ := by
    rw [METRIC_PATTERN_match_split (by decide) (by decide)]
    simp only [hside, htype]
    rw [matchDotDigits_all (natToDigits_ne_nil n) (natToDigits_digits n)]
  unfold resolveMetricName
  simp only [hch, hm]
  rw [resolveParsed_hits, parseNat_natToDigits]
  exact hrest

deriving instance DecidableEq for Except

set_option maxRecDepth 1000000

/-- Round trip for every canonical non-`hits_at_k` key: a finite check over
the 14 names, 3 sides and 3 rank types (sans the non-realistic AMR/AMRI
combinations, which are not canonical). -/
theorem roundtrip_nonhits_all :
    ∀ nm ∈ canonicalNames, nm ≠ "hits_at_k" →
    ∀ sd ∈ (["head", "tail", "both"] : List String),
    ∀ ty ∈ (["optimistic", "realistic", "pessimistic"] : List String),
    (nm ∈ TYPES_REALISTIC_ONLY → ty = "realistic") →
    resolveMetricName (metricKeyToString ⟨nm, sd, ty, none⟩) =
      .ok ⟨nm, sd, ty, none⟩ := by
  decide

/-! ### Claims C5, C6, C7 -/

/-- C5 (amended): for every canonical `MetricKey` — canonical name, side in
{head, tail, both}, rank type in {optimistic, realistic, pessimistic}, `k`
present iff the name is `hits_at_k`, rank type `realistic` for AMR/AMRI —
whose `k`, when present, is positive, parsing `str(key)` back through
`resolve_metric_name` returns the original key. -/
theorem C5_metric_key_round_trip (key : MetricKey)
    (hname : key.name ∈ canonicalNames)
    (hside : key.side ∈ (["head", "tail", "both"] : List String))
    (htype : key.rank_type ∈ (["optimistic", "realistic", "pessimistic"] : List String))
    (hk : key.name = "hits_at_k" ↔ key.k ≠ none)
    (hamr : key.name ∈ TYPES_REALISTIC_ONLY → key.rank_type = "realistic")
    (hkpos : ∀ n, key.k = some n → 1 ≤ n) :
    resolveMetricName (metricKeyToString key) = .ok key := by
  obtain ⟨nm, sd, ty, k⟩ := key
  simp only at hname hside htype hk hamr hkpos
  by_cases hnm : nm = "hits_at_k"
  · subst hnm
    have hk' : k ≠ none := hk.mp rfl
    obtain ⟨n, rfl⟩ : ∃ n, k = some n := by
      cases k with
      | none => exact absurd rfl hk'
      | some n => exact ⟨n, rfl⟩
    have hn : 1 ≤ n := hkpos n rfl
    have hn0 : n ≠ 0 := by omega
    have hsd : sd = "head" ∨ sd = "tail" ∨ sd = "both" := by simpa using hside
    have hty : ty = "optimistic" ∨ ty = "realistic" ∨ ty = "pessimistic" := by
      simpa using htype
    rcases hsd with rfl | rfl | rfl <;> rcases hty with rfl | rfl | rfl
    · exact roundtrip_hits_one "head".toList "optimistic".toList n hn0
        (matchSide_head _) (matchType_optimistic _) rfl
    · exact roundtrip_hits_one "head".toList "realistic".toList n hn0
        (matchSide_head _) (matchType_realistic _) rfl
    · exact roundtrip_hits_one "head".toList "pessimistic".toList n hn0
        (matchSide_head _) (matchType_pessimistic _) rfl
    · exact roundtrip_hits_one "tail".toList "optimistic".toList n hn0
        (matchSide_tail _) (matchType_optimistic _) rfl
    · exact roundtrip_hits_one "tail".toList "realistic".toList n hn0
        (matchSide_tail _) (matchType_realistic _) rfl
    · exact roundtrip_hits_one "tail".toList "pessimistic".toList n hn0
        (matchSide_tail _) (matchType_pessimistic _) rfl
    · exact roundtrip_hits_one "both".toList "optimistic".toList n hn0
        (matchSide_both _) (matchType_optimistic _) rfl
    · exact roundtrip_hits_one "both".toList "realistic".toList n hn0
        (matchSide_both _) (matchType_realistic _) rfl
    · exact roundtrip_hits_one "both".toList "pessimistic".toList n hn0
        (matchSide_both _) (matchType_pessimistic _) rfl
  · have hk0 : k = none := by
      cases k with
      | none => rfl
      | some n => exact absurd (hk.mpr (by simp)) hnm
    subst hk0
    exact roundtrip_nonhits_all nm hname hnm sd hside ty htype hamr

/-- Witness for `C5_metric_key_round_trip` at `hits_at_k.head.optimistic.3`. -/
theorem C5_metric_key_round_trip_witness :
    (("hits_at_k" ∈ canonicalNames) ∧
      ("head" ∈ (["head", "tail", "both"] : List String)) ∧
      ("optimistic" ∈ (["optimistic", "realistic", "pessimistic"] : List String)) ∧
      (∀ n, (some 3 : Option ℕ) = some n → 1 ≤ n)) ∧
    resolveMetricName (metricKeyToString ⟨"hits_at_k", "head", "optimistic", some 3⟩) =
      .ok ⟨"hits_at_k", "head", "optimistic", some 3⟩ :=
  ⟨⟨by decide, by decide, by decide, fun n h => by cases h; norm_num⟩,
    C5_metric_key_round_trip ⟨"hits_at_k", "head", "optimistic", some 3⟩
      (by decide) (by decide) (by decide) (by decide) (by decide)
      (fun n h => by cases h; norm_num)⟩

/-- Counterexample to C5 as stated: the canonical key
`MetricKey("hits_at_k", "head", "optimistic", 0)` (with `k = 0`, which the
resolver itself produces from the query `h@0.head.optimistic`) does not round
trip: `str` drops the falsy `k = 0`, and re-parsing defaults `k` to `10`. -/
theorem C5_k_zero_counterexample :
    resolveMetricName "h@0.head.optimistic" =
      .ok ⟨"hits_at_k", "head", "optimistic", some 0⟩ ∧
    metricKeyToString ⟨"hits_at_k", "head", "optimistic", some 0⟩ =
      "hits_at_k.head.optimistic" ∧
    resolveMetricName
        (metricKeyToString ⟨"hits_at_k", "head", "optimistic", some 0⟩) =
      .ok ⟨"hits_at_k", "head", "optimistic", some 10⟩ ∧
    (MetricKey.mk "hits_at_k" "head" "optimistic" (some 10) ≠
      MetricKey.mk "hits_at_k" "head" "optimistic" (some 0)) := by
  refine ⟨by decide, by decide, by decide, by decide⟩

/-- C6: `resolve_metric_name("mrr")` does *not* equal
`resolve_metric_name("inverse_harmonic_mean_rank.both.realistic")` — the
hand-written `METRIC_SYNONYMS` table only normalises the adjusted-mean-rank
family, so `"mrr"` keeps the (unknown) name `mrr`; the AMRI synonym pair
does resolve equal. -/
theorem C6_synonym_resolution :
    resolveMetricName "mrr" = .ok ⟨"mrr", "both", "realistic", none⟩ ∧
    resolveMetricName "inverse_harmonic_mean_rank.both.realistic" =
      .ok ⟨"inverse_harmonic_mean_rank", "both", "realistic", none⟩ ∧
    resolveMetricName "mrr" ≠
      resolveMetricName "inverse_harmonic_mean_rank.both.realistic" ∧
    resolveMetricName "amri.avg" =
      resolveMetricName "adjusted_arithmetic_mean_rank_index.both.realistic" := by
  refine ⟨by decide, by decide, by decide, by decide⟩

/-- A result of `resolve_metric_name` is an error. -/
def isErrorResult (r : Except String MetricKey) : Bool :=
  match r with
  | .error _ => true
  | .ok _ => false

/-- C7: `resolve_metric_name` rejects every non-realistic rank type (including
the `best`/`worst` synonyms) for every spelling that normalises to AMR or
AMRI, for every side; in particular `amr.optimistic` fails with the
descriptive rank-type/metric mismatch message. -/
theorem C7_amr_amri_rank_type_rejection :
    (∀ nm ∈ (["amr", "aamr", "amri", "aamri", "adjusted_mean_rank",
        "adjusted_mean_rank_index", "adjusted_arithmetic_mean_rank",
        "adjusted_arithmetic_mean_rank_index"] : List String),
      ∀ sd ∈ (["", ".head", ".tail", ".both"] : List String),
      ∀ ty ∈ (["optimistic", "pessimistic", "best", "worst"] : List String),
        isErrorResult (resolveMetricName (nm ++ sd ++ "." ++ ty)) = true) ∧
    resolveMetricName "amr.optimistic" =
      .error ("Invalid rank type for adjusted_arithmetic_mean_rank: " ++
        "optimistic. Allowed type: realistic") := by
  refine ⟨by decide, by decide⟩

/-! ### The rank-based evaluator

`RankBasedEvaluator` keeps two mutable containers: `self.ranks`, a *plain*
nested dict `rank_type → side → list of arrays` fully populated by
`__init__`, and `self.number_of_options`, a `defaultdict(list)` keyed by
side.  Both are modelled as association lists so that `dict.clear()` — which
removes the keys — is distinguishable from resetting the inner lists.
Stored rank arrays become `List ℚ` (finalize converts them to `float64`
anyway), candidate-count arrays `List ℕ`. -/

/-- Association-list lookup: `d[k]` returning `none` for a `KeyError`. -/
def alistGet? {α : Type} (m : List (String × α)) (k : String) : Option α :=
  (m.find? (fun p => p.1 = k)).map (fun p => p.2)

/-- Association-list update: overwrite the value at `k` in place, or append
the binding (Python-dict insertion semantics). -/
def alistSet {α : Type} (m : List (String × α)) (k : String) (v : α) :
    List (String × α) :=
  if (m.find? (fun p => p.1 = k)).isSome then
    m.map (fun p => if p.1 = k then (k, v) else p)
  else m ++ [(k, v)]

/-- The evaluator's mutable accumulation state. -/
structure EvaluatorState where
  ranks : List (String × List (String × List (List ℚ)))
  number_of_options : List (String × List (List ℕ))
deriving DecidableEq, Repr

/-- `__init__`: `self.ranks = {rank_type: {side: [] for side in REAL_SIDES}
for rank_type in RANK_TYPES}`; `self.number_of_options = defaultdict(list)`. -/
def initState : EvaluatorState :=
  { ranks := RANK_TYPES.map fun rt => (rt, [("head", []), ("tail", [])])
    number_of_options := [] }

/-- `Ranks.to_type_dict`, with the integer tensors already converted to the
floats finalize would cast them to. -/
def ranksToTypeDict (r : Ranks) : List (String × List ℚ) :=
  [("optimistic", r.optimistic.map (Nat.cast : ℕ → ℚ)),
   ("realistic", r.realistic),
   ("pessimistic", r.pessimistic.map (Nat.cast : ℕ → ℚ))]

/-- `_update_ranks_`: compute the batch ranks and append each rank-type array
to `self.ranks[rank_type][side]` (a `KeyError` if either key is missing) and
the option counts to the `defaultdict` `self.number_of_options[side]`. -/
def updateRanks (st : EvaluatorState) (side : String)
    (true_scores : List Score) (all_scores : List (List Score)) :
    Except String EvaluatorState := do
  let batch := compute_rank_from_scores true_scores all_scores
  let ranks' ← (ranksToTypeDict batch).foldlM
    (fun (m : List (String × List (String × List (List ℚ)))) p => do
      match alistGet? m p.1 with
      | none => throw ("KeyError: " ++ p.1)
      | some inner =>
        match alistGet? inner side with
        | none => throw ("KeyError: " ++ side)
        | some arrays =>
          pure (alistSet m p.1 (alistSet inner side (arrays ++ [p.2]))))
    st.ranks
  let curr := (alistGet? st.number_of_options side).getD []
  pure { ranks := ranks'
         number_of_options :=
           alistSet st.number_of_options side (curr ++ [batch.number_of_options]) }

/-- `process_head_scores_`. -/
def process_head_scores_ (st : EvaluatorState) (true_scores : List Score)
    (all_scores : List (List Score)) : Except String EvaluatorState :=
  updateRanks st "head" true_scores all_scores

/-- `process_tail_scores_`. -/
def process_tail_scores_ (st : EvaluatorState) (true_scores : List Score)
    (all_scores : List (List Score)) : Except String EvaluatorState :=
  updateRanks st "tail" true_scores all_scores

/-- `_get_for_side` for a real side: `np.concatenate(mapping.get(side, []))`,
which raises `ValueError` when the list holds no arrays at all. -/
def getForRealSide {α : Type} (mapping : List (String × List (List α)))
    (side : String) : Except String (List α) :=
  let values := (alistGet? mapping side).getD []
  if values.isEmpty then
    .error "ValueError: need at least one array to concatenate"
  else .ok values.join

/-- `_get_for_side`: for `both`, the concatenation of the two real sides
(`np.concatenate` of exactly two arrays never sees an empty list). -/
def getForSide {α : Type} (mapping : List (String × List (List α)))
    (side : String) : Except String (List α) :=
  if side = "both" then do
    let h ← getForRealSide mapping "head"
    let t ← getForRealSide mapping "tail"
    pure (h ++ t)
  else getForRealSide mapping side

/-- `class_resolver`'s `normalize_inst`: the lowercased class name. -/
def normalizeInst (m : RankMetric) : String :=
  String.mk (m.name.toList.map Char.toLower)

/-- `self.metrics`: one instance of every non-`HitsAtK` registry class plus
one `HitsAtK` per requested `k`, keyed by normalised name in a dict.  All
`HitsAtK` instances normalise to the same key `"hitsatk"`, so the dict keeps
only the last one (`k = 10` for the default `ks = (1, 3, 5, 10)`). -/
def mkMetricsDict (ks : List ℕ) : List (String × RankMetric) :=
  (((metricRegistry 10).filter fun m => m.name ≠ "HitsAtK") ++ ks.map HitsAtK).foldl
    (fun m met => alistSet m (normalizeInst met) met) []

/-- The default evaluator's metric dict (`ks = (1, 3, 5, 10)`). -/
def defaultMetrics : List (String × RankMetric) := mkMetricsDict [1, 3, 5, 10]

/-- The report built by `finalize`, keyed by (metric name, side, rank type). -/
abbrev MetricResultsMap : Type := List ((String × String × String) × MetricValue)

/-- `finalize`: for each side and rank type, concatenate the accumulated
arrays (skipping — with a log message — combinations whose concatenated
array is empty), apply every metric supporting the rank type, and clear both
buffers.  Exceptions (`KeyError` from the plain dict, `ValueError` from
`np.concatenate` on an empty list) propagate. -/
def finalize (st : EvaluatorState) (metrics : List (String × RankMetric)) :
    Except String (MetricResultsMap × EvaluatorState) := do
  let result ← (["head", "tail", "both"] : List String).foldlM
    (fun (acc : MetricResultsMap) side => do
      let num_candidates ← getForSide st.number_of_options side
      if num_candidates.length < 1 then
        -- logger.warning(f"No num_candidates for side={side}"); continue
        pure acc
      else
        RANK_TYPES.foldlM
          (fun (acc2 : MetricResultsMap) rank_type => do
            match alistGet? st.ranks rank_type with
            | none => throw ("KeyError: " ++ rank_type)
            | some side_map => do
              let ranks ← getForSide side_map side
              if ranks.length < 1 then
                -- logger.warning(...); continue
                pure acc2
              else
                pure (metrics.foldl
                  (fun acc3 p =>
                    if p.2.supported_rank_types.contains rank_type then
                      acc3 ++ [((p.1, side, rank_type), p.2.fn ranks num_candidates)]
                    else acc3)
                  acc2))
          acc)
    []
  -- self.ranks.clear(); self.number_of_options.clear()
  pure (result, ⟨[], []⟩)

/-- Lookup in the report map. -/
def resultsGet? (res : MetricResultsMap) (key : String × String × String) :
    Option MetricValue :=
  (res.find? fun p => p.1 = key).map fun p => p.2

/-- The lookup step of `get_metric` on a resolved key: any metric whose name
starts with `"hits"` (`startswith`, on the character-list model of strings)
raises `NotImplementedError` instead of being looked up. -/
def get_metric_key (res : MetricResultsMap) (key : MetricKey) :
    Except String MetricValue :=
  if ¬ ("hits".toList.isPrefixOf key.name.toList) then
    match resultsGet? res (key.name, key.side, key.rank_type) with
    | some v => .ok v
    | none => .error ("KeyError: " ++ key.name)
  else .error "NotImplementedError"

/-- `RankBasedMetricResults.get_metric`: resolve the query, then look the
resolved key up in `self.results`. -/
def get_metric (res : MetricResultsMap) (name : String) :
    Except String MetricValue :=
  match resolveMetricName name with
  | .error e => .error e
  | .ok key => get_metric_key res key

/-! ### Claims C8, C9, C10 -/

/-- A successful `finalize` always returns the cleared state (`dict.clear()`
on both buffers). -/
theorem finalize_ok_clears {st : EvaluatorState}
    {metrics : List (String × RankMetric)} {res : MetricResultsMap}
    {st' : EvaluatorState} (h : finalize st metrics = .ok (res, st')) :
    st' = ⟨[], []⟩ := by
  unfold finalize at h
  simp only [bind, Except.bind] at h
  split at h
  · exact absurd h (by simp)
  · simp only [pure, Except.pure, Except.ok.injEq, Prod.mk.injEq] at h
    exact h.2.symm

/-- `finalize` on the cleared state raises (`np.concatenate` of the empty
`mapping.get("head", [])`), whatever the metric dict. -/
theorem finalize_cleared_raises (metrics : List (String × RankMetric)) :
    finalize ⟨[], []⟩ metrics =
      .error "ValueError: need at least one array to concatenate" := rfl

/-- C8 (code bug): `finalize` is *not* total on missing data.  On a freshly
constructed evaluator (no accumulated batches) it raises `ValueError` from
`np.concatenate([])` instead of returning an empty report, and a second
`finalize` without intervening updates raises the same error instead of
returning an all-absent report. -/
theorem C8_finalize_missing_data_raises :
    finalize initState defaultMetrics =
      .error "ValueError: need at least one array to concatenate" ∧
    (∀ (st : EvaluatorState) (metrics : List (String × RankMetric))
        (res : MetricResultsMap) (st' : EvaluatorState),
      finalize st metrics = .ok (res, st') →
      finalize st' metrics =
        .error "ValueError: need at least one array to concatenate") := by
  refine ⟨rfl, ?_⟩
  intro st metrics res st' h
  rw [finalize_ok_clears h]
  exact finalize_cleared_raises metrics

/-- C9 (code bug): after `finalize` the evaluator is *not* ready for a fresh
run.  Any tail-side update succeeds on a freshly constructed evaluator, but
the same update raises `KeyError('optimistic')` after a successful
`finalize`, because `self.ranks.clear()` removed the rank-type keys instead
of resetting the per-side lists. -/
theorem C9_update_after_finalize_raises
    (true_scores : List Score) (all_scores : List (List Score)) :
    (∃ st₁, process_tail_scores_ initState true_scores all_scores = .ok st₁) ∧
    (∀ (st : EvaluatorState) (metrics : List (String × RankMetric))
        (res : MetricResultsMap) (st' : EvaluatorState),
      finalize st metrics = .ok (res, st') →
      process_tail_scores_ st' true_scores all_scores =
        .error "KeyError: optimistic") := by
  refine ⟨⟨_, rfl⟩, ?_⟩
  intro st metrics res st' h
  rw [finalize_ok_clears h]
  rfl

/-- C10 (code bug): after a successful run, the report contains `hits_at_k`
entries (under the normalised key `"hitsatk"`), yet `get_metric` raises
`NotImplementedError` for every query whose resolved metric name starts with
`"hits"` — so the stored Hits@k values are unreachable by name lookup, while
a non-hits entry is returned. -/
theorem C10_get_metric_hits_unreachable :
    ∃ st₁ st₂ res st₃,
      process_head_scores_ initState [.val 1] [[.val 1, .val 0]] = .ok st₁ ∧
      process_tail_scores_ st₁ [.val 1] [[.val 1, .val 0]] = .ok st₂ ∧
      finalize st₂ defaultMetrics = .ok (res, st₃) ∧
      (resultsGet? res ("hitsatk", "tail", "realistic")).isSome = true ∧
      (∃ v, get_metric res "arithmeticmeanrank.tail.realistic" = .ok v) ∧
      get_metric res "hits@10" = .error "NotImplementedError" ∧
      get_metric res "hits_at_k.tail.realistic.10" = .error "NotImplementedError" ∧
      (∀ (q : String) (key : MetricKey), resolveMetricName q = .ok key →
        key.name = "hitsatk" → get_metric res q = .error "NotImplementedError") := by
  refine ⟨_, _, _, _, rfl, rfl, rfl, rfl, ⟨_, rfl⟩, rfl, rfl, ?_⟩
  intro q key h hk
  unfold get_metric
  rw [h]
  show get_metric_key _ key = _
  unfold get_metric_key
  rw [hk]
  rfl

end PyKEEN
